import Mathlib

/-!
Verification of the conversation-export analysis toolkit exercised by
`src/playground.ipynb`.

The notebook is the visible source: `get_top_convos`, `clear_output`, the
markdown file-path construction and the week/month-wise timeseries bucketing
are embedded from it directly.  The conversation data model it calls
(`models.conversation.Conversation`, `models.conversation_set.ConversationSet`)
is not part of the visible source; those definitions are modelled from the
specification and are marked `Modelled from the spec:` in their doc comments.
-/

namespace ChatExport

/-- Modelled from the spec: `MessageNode` (§3) — a single turn in a
conversation tree: id, author_role, content_type, optional plugin_name and
create_time (seconds since epoch), raw text payload.  The concrete class lives
in `models.conversation`, which is absent from the visible source. -/
structure MessageNode where
  id : String
  author_role : String
  content_type : String
  plugin_name : Option String
  create_time : Option Nat
  text : String
deriving DecidableEq

/-- Modelled from the spec: the node structure of a `ConversationTree` (§3) —
"a rooted tree of MessageNodes"; "A node may have zero, one, or multiple
children (multiple children represent regenerated/branching responses)". -/
inductive ConvTree where
| node (msg : MessageNode) (children : List ConvTree)

mutual

/-- Modelled from the spec: `message_count()` (§4.1) — "total number of nodes
in the tree, including the root". -/
def message_count : ConvTree → Nat
| .node _ cs => 1 + message_count_list cs

/-- Total node count of a list of subtrees. -/
def message_count_list : List ConvTree → Nat
| [] => 0
| t :: ts => message_count t + message_count_list ts

end

mutual

/-- Modelled from the spec: `leaf_count()` (§4.1) — "number of nodes with zero
children". -/
def leaf_count : ConvTree → Nat
| .node _ [] => 1
| .node _ (t :: ts) => leaf_count_list (t :: ts)

/-- Total leaf count of a list of subtrees. -/
def leaf_count_list : List ConvTree → Nat
| [] => 0
| t :: ts => leaf_count t + leaf_count_list ts

end

/-- Modelled from the spec: `ConversationTree` metadata (§3) — id, title
("possibly empty or missing"), create_time, together with the tree of message
nodes.  Named `Conversation` after the class used by the notebook. -/
structure Conversation where
  id : String
  title : Option String
  create_time : Option Nat
  tree : ConvTree

/-- Embedding of Python `sorted(l, key=attr_func, reverse=True)` as used in
`get_top_convos` (src/playground.ipynb cell 7): a stable sort, descending by
key; ties keep their original relative order. -/
def sorted_desc {α : Type} (key : α → Int) (l : List α) : List α :=
  List.insertionSort (fun a b => key b ≤ key a) l

/-- Embedding of Python `sorted(stats)` as used for the median in
`get_top_convos`: a stable ascending sort. -/
def sorted_asc (l : List Int) : List Int :=
  List.insertionSort (fun a b => a ≤ b) l

/-- Embedding of `convos_sorted_by_attr[:count]` from `get_top_convos`:
the first `n` conversations of the descending stable sort. -/
def top_n {α : Type} (key : α → Int) (n : Nat) (l : List α) : List α :=
  (sorted_desc key l).take n

/-- Embedding of `avg_stat = sum(stats) / len(stats)` from `get_top_convos`:
on a zero-element list Python raises `ZeroDivisionError`, modelled as the
error case. -/
def avg_stat (stats : List Int) : Except String Rat :=
  if stats.length = 0 then .error "ZeroDivisionError: division by zero"
  else .ok ((stats.sum : Rat) / (stats.length : Rat))

/-- Embedding of `median_stat = sorted(stats)[len(stats) // 2]` from
`get_top_convos`: an out-of-range index (empty list) gives `none`, standing
for Python's `IndexError`. -/
def median_stat (stats : List Int) : Option Int :=
  (sorted_asc stats).get? (stats.length / 2)

/-- Embedding of `max_stat = max(stats)` from `get_top_convos`: Python's
`max` raises on an empty sequence, modelled as `none`. -/
def max_stat : List Int → Option Int
| [] => none
| x :: xs => some (xs.foldl max x)

/-- Characters that are illegal in file names (the Windows-reserved set,
which is the superset conventionally used for sanitization). -/
def illegal_chars : List Char := ['/', '\\', ':', '*', '?', '"', '<', '>', '|']

/-- Bound on the sanitized title length, to respect filesystem path limits. -/
def max_title_length : Nat := 100

/-- Replacement of a single character: illegal file-name characters become
an underscore, every other character is kept. -/
def sanitize_char (ch : Char) : Char := if ch ∈ illegal_chars then '_' else ch

/-- Modelled from the spec: `sanitized_title()` (§4.1) — "falls back to a
placeholder (e.g. the conversation id) when `title` is empty or missing;
replaces characters illegal in file names with a safe substitute; truncates
to a bounded maximum length"; deterministic in the title.  The concrete
method lives in `models.conversation`, absent from the visible source. -/
def sanitized_title (c : Conversation) : String :=
  match c.title with
  | none => c.id
  | some t =>
      if t = "" then c.id
      else String.mk ((t.data.map sanitize_char).take max_title_length)

/-- Embedding of the file name in
`file_path = output_path / f"{convo.sanitized_title()}.md"`
(src/playground.ipynb cell 7). -/
def markdown_file_name (c : Conversation) : String :=
  sanitized_title c ++ ".md"

/-- Embedding of `file_path = output_path / f"{convo.sanitized_title()}.md"`:
the full output path for one conversation's markdown file. -/
def markdown_file_path (output_path : String) (c : Conversation) : String :=
  output_path ++ "/" ++ markdown_file_name c

/-- The summary values printed by `get_top_convos` plus the markdown file
paths it writes (in the order of the saving loop). -/
structure TopConvosResult where
  avg : Rat
  median : Int
  max : Int
  saved_files : List String
deriving DecidableEq

/-- Embedding of `get_top_convos` (src/playground.ipynb cell 7).  The notebook
reads the module-global `output_path`; that ambient value is modelled as the
explicit `output_path` argument.  Python's exceptions (`ZeroDivisionError`
from the average, `IndexError` from the median, `ValueError` from `max`)
become the `Except.error` case, raised in the order Python evaluates them. -/
def get_top_convos (output_path : String) (attr_func : Conversation → Int)
    (conversation_list : List Conversation) (count : Nat) :
    Except String TopConvosResult :=
  let stats := conversation_list.map attr_func
  match avg_stat stats with
  | .error e => .error e
  | .ok avg =>
    match median_stat stats with
    | none => .error "IndexError: list index out of range"
    | some med =>
      match max_stat stats with
      | none => .error "ValueError: max() arg is an empty sequence"
      | some mx =>
        .ok { avg := avg, median := med, max := mx,
              saved_files := (top_n attr_func count conversation_list).map
                (markdown_file_path output_path) }

/-- A file of the modelled filesystem: (containing directory, file name). -/
abbrev FSFile := String × String

/-- The notebook's module-global state: the `output_path` variable defined at
top level (cell 3) and read by `clear_output` without being passed in. -/
structure GlobalState where
  output_path : String
deriving DecidableEq

/-- Embedding of `clear_output` (src/playground.ipynb cell 4):
`for file in output_path.glob("*"): file.unlink()` — every file whose
directory is the module-global `output_path` is removed.  The function takes
no explicit directory argument in the source; the ambient global is the
`GlobalState`. -/
def clear_output (g : GlobalState) (files : List FSFile) : List FSFile :=
  files.filter (fun f => f.1 ≠ g.output_path)

/-- Seconds per day. -/
def seconds_per_day : Nat := 86400

/-- Modelled from the spec: the week boundary of `grouped_by_week()` (§4.2) —
"weeks start Monday 00:00"; timestamps are seconds since the epoch and epoch
day 0 (1970-01-01) was a Thursday, weekday index 3 counting Monday as 0. -/
def week_start (t : Nat) : Nat :=
  (t / seconds_per_day - (t / seconds_per_day + 3) % 7) * seconds_per_day

/-- The week key of one conversation: `none` when `create_time` is absent. -/
def conv_week (c : Conversation) : Option Nat :=
  c.create_time.map week_start

/-- Modelled from the spec: `grouped_by_week()` (§4.2) — "partitions
conversations by the calendar week containing each conversation's
`create_time`.  Conversations lacking a `create_time` are excluded from every
group".  The mapping is the list of distinct week keys, in first-appearance
order, each paired with the sub-collection of conversations of that week.
The concrete method lives in `models.conversation_set`, absent from the
visible source. -/
def grouped_by_week (conversation_list : List Conversation) :
    List (Nat × List Conversation) :=
  ((conversation_list.filterMap conv_week).dedup).map
    (fun k => (k, conversation_list.filter (fun c => conv_week c = some k)))

/-- Embedding of `date.weekday()` applied to `datetime.fromtimestamp(ts)` in
`create_weekwise_timeseries_graph` (src/playground.ipynb cell 16): the
local-time conversion of `fromtimestamp` is modelled as a fixed offset `off`
in seconds added to the UTC timestamp.  Monday is index 0; epoch day 0 was a
Thursday, index 3. -/
def weekday_of (off : Nat) (ts : Nat) : Fin 7 :=
  ⟨((ts + off) / seconds_per_day + 3) % 7, Nat.mod_lt _ (by norm_num)⟩

/-- Embedding of the `weekday_counts` accumulation of
`create_weekwise_timeseries_graph`: how many timestamps fall in weekday
bucket `d`. -/
def weekday_counts (off : Nat) (timestamps : List Nat) (d : Fin 7) : Nat :=
  timestamps.countP (fun ts => weekday_of off ts = d)

/-- A message node with no distinguishing payload, for concrete scenarios. -/
def dummy_msg : MessageNode :=
  { id := "m", author_role := "assistant", content_type := "text",
    plugin_name := none, create_time := none, text := "" }

/-- A strictly linear conversation tree with `n + 1` nodes. -/
def chain_tree : Nat → ConvTree
| 0 => .node dummy_msg []
| n + 1 => .node dummy_msg [chain_tree n]

/-- The notebook's `lambda c: c.message_count()` attribute function, cast to
the Int-valued `AttrFunc`. -/
def message_count_attr (c : Conversation) : Int :=
  (message_count c.tree : Int)

/-- Scenario tree of §8: root R, children A and B under R, and leaf C
under A. -/
def scenario_tree : ConvTree :=
  .node dummy_msg [.node dummy_msg [.node dummy_msg []], .node dummy_msg []]

/-- Demo collection for the `top_n` scenario of §8: five conversations with
message counts [1, 5, 3, 5, 2]. -/
def demo_convos : List Conversation :=
  [ ⟨"c1", some "alpha", some 1696204800, chain_tree 0⟩,
    ⟨"c2", some "bravo", some 1696291200, chain_tree 4⟩,
    ⟨"c3", some "charlie", some 1696377600, chain_tree 2⟩,
    ⟨"c4", some "delta", some 1696809600, chain_tree 4⟩,
    ⟨"c5", some "echo", none, chain_tree 1⟩ ]

/-- The partition invariant of `grouped_by_week` (§4.2): every conversation
with a timestamp lies in exactly one group — the one keyed by the week of its
`create_time`; the group keys are distinct; groups with different keys have
disjoint conversation-id sets; the union of the groups' id sets is exactly
the set of ids of conversations with a timestamp; and conversations without
a `create_time` appear in no group. -/
def grouped_by_week_is_partition (convos : List Conversation) : Prop :=
  (∀ c ∈ convos, ∀ t : Nat, c.create_time = some t →
      ∃ g, (week_start t, g) ∈ grouped_by_week convos ∧ c ∈ g ∧
        ∀ k' g', (k', g') ∈ grouped_by_week convos → c ∈ g' →
          k' = week_start t) ∧
    ((grouped_by_week convos).map Prod.fst).Nodup ∧
    (∀ k g k' g', (k, g) ∈ grouped_by_week convos →
        (k', g') ∈ grouped_by_week convos → k ≠ k' →
        ∀ c ∈ g, ∀ c' ∈ g', c.id ≠ c'.id) ∧
    (∀ i : String,
        (∃ k g, (k, g) ∈ grouped_by_week convos ∧
            i ∈ g.map Conversation.id) ↔
          ∃ c ∈ convos, c.id = i ∧ c.create_time.isSome) ∧
    (∀ c ∈ convos, c.create_time = none →
      ∀ k g, (k, g) ∈ grouped_by_week convos → c ∉ g)

/-! ## Helper lemmas -/

theorem filter_orderedInsert {α : Type} (key : α → Int) (v : Int) (x : α)
    (l : List α) :
    (List.orderedInsert (fun a b => key b ≤ key a) x l).filter
        (fun c => key c = v) =
      if key x = v then x :: l.filter (fun c => key c = v)
      else l.filter (fun c => key c = v) := by
  induction l with
  | nil =>
    by_cases hv : key x = v <;> simp [List.orderedInsert, List.filter_cons, hv]
  | cons y ys ih =>
    by_cases hxy : key y ≤ key x
    · simp only [List.orderedInsert, if_pos hxy]
      by_cases hv : key x = v <;> simp [List.filter_cons, hv]
    · simp only [List.orderedInsert, if_neg hxy]
      by_cases hyv : key y = v
      · have hxv : ¬ key x = v := by
          intro hxv; exact hxy (le_of_lt (by omega))
        simp [List.filter_cons, hyv, hxv, ih]
      · simp [List.filter_cons, hyv, ih]

theorem sorted_desc_filter {α : Type} (key : α → Int) (v : Int) (l : List α) :
    (sorted_desc key l).filter (fun c => key c = v) =
      l.filter (fun c => key c = v) := by
  induction l with
  | nil => rfl
  | cons x xs ih =>
    simp only [sorted_desc] at ih ⊢
    show (List.orderedInsert _ x
        (List.insertionSort (fun a b => key b ≤ key a) xs)).filter _ = _
    rw [filter_orderedInsert]
    by_cases hv : key x = v <;>
      simp [List.filter_cons, hv, ih]

theorem sorted_desc_perm {α : Type} (key : α → Int) (l : List α) :
    (sorted_desc key l).Perm l :=
  List.perm_insertionSort _ l

theorem sorted_desc_length {α : Type} (key : α → Int) (l : List α) :
    (sorted_desc key l).length = l.length :=
  List.length_insertionSort _ l

theorem sorted_desc_sorted {α : Type} (key : α → Int) (l : List α) :
    (sorted_desc key l).Sorted (fun a b => key b ≤ key a) := by
  haveI : IsTotal α (fun a b => key b ≤ key a) :=
    ⟨fun a b => le_total (key b) (key a)⟩
  haveI : IsTrans α (fun a b => key b ≤ key a) :=
    ⟨fun _ _ _ h1 h2 => le_trans h2 h1⟩
  exact List.sorted_insertionSort _ l

theorem sorted_asc_perm (l : List Int) : (sorted_asc l).Perm l :=
  List.perm_insertionSort _ l

theorem sorted_asc_length (l : List Int) : (sorted_asc l).length = l.length :=
  List.length_insertionSort _ l

theorem sorted_asc_sorted (l : List Int) :
    (sorted_asc l).Sorted (fun a b => a ≤ b) := by
  haveI : IsTotal Int (fun a b : Int => a ≤ b) := ⟨fun a b => le_total a b⟩
  haveI : IsTrans Int (fun a b : Int => a ≤ b) :=
    ⟨fun _ _ _ h1 h2 => le_trans h1 h2⟩
  exact List.sorted_insertionSort _ l

/-! ## Claims -/

/-- C1: sorting a conversation collection by a key in descending order is
stable — for every key value `v`, the subsequence of conversations whose key
equals `v` is exactly the same, in the same order, as in the original
collection; and on the five demo conversations with message counts
[1, 5, 3, 5, 2], the top 3 by message count have counts [5, 5, 3], with the
two count-5 conversations (`c2` before `c4`) in their original relative
order. -/
theorem sorted_desc_stable_and_scenario :
    (∀ (key : Conversation → Int) (convos : List Conversation) (v : Int),
        (sorted_desc key convos).filter (fun c => key c = v) =
          convos.filter (fun c => key c = v)) ∧
      (top_n message_count_attr 3 demo_convos).map message_count_attr =
        [5, 5, 3] ∧
      (top_n message_count_attr 3 demo_convos).map Conversation.id =
        ["c2", "c4", "c3"] ∧
      demo_convos.map message_count_attr = [1, 5, 3, 5, 2] :=
  ⟨fun key convos v => sorted_desc_filter key v convos, by rfl, by rfl, by rfl⟩

/-- C2: `top_n` returns exactly the first `n` elements of the descending
stable sort (which is indeed sorted descending by the key and a permutation
of the input); and whenever `n` is at least the collection size it returns
all conversations — the full sorted list, a permutation of the collection. -/
theorem top_n_takes_sorted (key : Conversation → Int) (n : Nat)
    (convos : List Conversation) :
    top_n key n convos = (sorted_desc key convos).take n ∧
      (sorted_desc key convos).Sorted (fun a b => key b ≤ key a) ∧
      (convos.length ≤ n →
        top_n key n convos = sorted_desc key convos ∧
          (top_n key n convos).Perm convos) := by
  refine ⟨rfl, sorted_desc_sorted key convos, fun hn => ?_⟩
  have hlen : (sorted_desc key convos).length ≤ n := by
    rw [sorted_desc_length]; exact hn
  have htake : top_n key n convos = sorted_desc key convos := by
    unfold top_n
    exact List.take_of_length_le hlen
  exact ⟨htake, htake ▸ sorted_desc_perm key convos⟩

/-- C2 witness: on the five demo conversations, requesting the top 10 by
message count returns all five conversations — the whole sorted list, a
permutation of the collection. -/
theorem top_n_takes_sorted_witness :
    top_n message_count_attr 10 demo_convos =
        sorted_desc message_count_attr demo_convos ∧
      (top_n message_count_attr 10 demo_convos).Perm demo_convos :=
  (top_n_takes_sorted message_count_attr 10 demo_convos).2.2 (by decide)

/-- C3: requesting the statistics of `get_top_convos` over a zero-element
collection fails explicitly — the average `sum(stats) / len(stats)` raises
`ZeroDivisionError` (the error case of the embedding), rather than silently
returning zero or NaN. -/
theorem get_top_convos_empty_errors :
    (∀ (output_path : String) (attr_func : Conversation → Int) (count : Nat),
        get_top_convos output_path attr_func [] count =
          .error "ZeroDivisionError: division by zero") ∧
      avg_stat [] = .error "ZeroDivisionError: division by zero" :=
  ⟨fun _ _ _ => rfl, rfl⟩

theorem sanitized_title_nonempty_legal (c : Conversation) (hid : c.id ≠ "")
    (hidc : ∀ ch ∈ c.id.data, ch ∉ illegal_chars) :
    sanitized_title c ≠ "" ∧
      ∀ ch ∈ (sanitized_title c).data, ch ∉ illegal_chars := by
  unfold sanitized_title
  cases htitle : c.title with
  | none => exact ⟨hid, hidc⟩
  | some t =>
    by_cases ht : t = ""
    · simp only [if_pos ht]
      exact ⟨hid, hidc⟩
    · simp only [if_neg ht]
      constructor
      · intro hcontra
        have hdata : (t.data.map sanitize_char).take max_title_length = [] := by
          simpa using congrArg String.data hcontra
        rcases List.take_eq_nil_iff.mp hdata with h0 | hmap
        · exact absurd h0 (by norm_num [max_title_length])
        · exact ht (String.ext (List.map_eq_nil_iff.mp hmap))
      · intro ch hch
        have hch' : ch ∈ t.data.map sanitize_char := List.take_subset _ _ hch
        rcases List.mem_map.mp hch' with ⟨a, _, rfl⟩
        unfold sanitize_char
        by_cases ha : a ∈ illegal_chars
        · simp only [if_pos ha]
          decide
        · simp only [if_neg ha]
          exact ha

/-- C4 counterexample: two distinct conversations (ids "id1" and "id2") with
the identical title "chat" produce the very same markdown file name
"chat.md" and hence the same output path inside one directory — the file
names collide, contradicting the claim. -/
theorem identical_titles_collide :
    markdown_file_name ⟨"id1", some "chat", none, chain_tree 0⟩ =
        markdown_file_name ⟨"id2", some "chat", none, chain_tree 0⟩ ∧
      markdown_file_path "output" ⟨"id1", some "chat", none, chain_tree 0⟩ =
        markdown_file_path "output" ⟨"id2", some "chat", none, chain_tree 0⟩ ∧
      ("id1" : String) ≠ "id2" :=
  ⟨rfl, rfl, by decide⟩

/-- C4 amended: `sanitized_title()` of a conversation whose id is non-empty
and free of illegal characters is a non-empty string containing no characters
illegal in file names; but two conversations with the identical non-empty
title produce the SAME `{sanitized_title}.md` file name — the code applies no
id suffixing, so saving both into one directory collides. -/
theorem sanitized_title_safe_but_collides :
    (∀ c : Conversation, c.id ≠ "" →
        (∀ ch ∈ c.id.data, ch ∉ illegal_chars) →
        sanitized_title c ≠ "" ∧
          ∀ ch ∈ (sanitized_title c).data, ch ∉ illegal_chars) ∧
      (∀ (c₁ c₂ : Conversation) (t : String), t ≠ "" →
        c₁.title = some t → c₂.title = some t →
        markdown_file_name c₁ = markdown_file_name c₂) := by
  refine ⟨sanitized_title_nonempty_legal, fun c₁ c₂ t ht h1 h2 => ?_⟩
  unfold markdown_file_name sanitized_title
  rw [h1, h2]
  dsimp only
  simp only [if_neg ht]

/-- C4 witness: the amended claim applied at concrete conversations — the
title "a/b:c" sanitizes to a non-empty legal name, and the two conversations
titled "chat" share one file name. -/
theorem sanitized_title_safe_but_collides_witness :
    (sanitized_title ⟨"id1", some "a/b:c", none, chain_tree 0⟩ ≠ "" ∧
        ∀ ch ∈ (sanitized_title
          ⟨"id1", some "a/b:c", none, chain_tree 0⟩).data,
          ch ∉ illegal_chars) ∧
      markdown_file_name ⟨"idA", some "chat", none, chain_tree 0⟩ =
        markdown_file_name ⟨"idB", some "chat", none, chain_tree 0⟩ :=
  ⟨sanitized_title_safe_but_collides.1
      ⟨"id1", some "a/b:c", none, chain_tree 0⟩ (by decide) (by decide),
    sanitized_title_safe_but_collides.2
      ⟨"idA", some "chat", none, chain_tree 0⟩
      ⟨"idB", some "chat", none, chain_tree 0⟩ "chat" (by decide) rfl rfl⟩

theorem convtree_ind {P : ConvTree → Prop}
    (h : ∀ m cs, (∀ t ∈ cs, P t) → P (ConvTree.node m cs)) :
    ∀ t, P t :=
  fun t =>
    ConvTree.rec (motive_1 := fun t => P t)
      (motive_2 := fun cs => ∀ t ∈ cs, P t)
      (fun m cs ih => h m cs ih)
      (fun t ht => absurd ht (List.not_mem_nil t))
      (fun t ts pt pts x hx => by
        rcases List.mem_cons.mp hx with rfl | hx
        · exact pt
        · exact pts x hx)
      t

theorem leaf_count_list_le (l : List ConvTree)
    (ih : ∀ t ∈ l, 1 ≤ leaf_count t ∧ leaf_count t ≤ message_count t) :
    leaf_count_list l ≤ message_count_list l := by
  induction l with
  | nil => simp [leaf_count_list, message_count_list]
  | cons c cs ihl =>
    simp only [leaf_count_list, message_count_list]
    have h1 := ih c (List.mem_cons_self c cs)
    have h2 := ihl (fun t ht => ih t (List.mem_cons_of_mem _ ht))
    omega

theorem leaf_count_bounds (t : ConvTree) :
    1 ≤ leaf_count t ∧ leaf_count t ≤ message_count t := by
  refine convtree_ind
    (P := fun t => 1 ≤ leaf_count t ∧ leaf_count t ≤ message_count t)
    (fun m cs ih => ?_) t
  cases cs with
  | nil =>
    refine ⟨le_refl 1, ?_⟩
    simp [leaf_count, message_count, message_count_list]
  | cons c cs' =>
    have hc := ih c (List.mem_cons_self c cs')
    have hle := leaf_count_list_le (c :: cs') ih
    constructor
    · simp only [leaf_count, leaf_count_list]
      omega
    · simp only [leaf_count, message_count] at hle ⊢
      omega

/-- C6: for every conversation tree, `leaf_count() ≥ 1` and
`message_count() ≥ leaf_count()`; on a single-node tree both equal 1; and on
the scenario tree — root R with children A and B, and leaf C under A —
`message_count() = 4` and `leaf_count() = 2`. -/
theorem tree_count_invariants :
    (∀ t : ConvTree, 1 ≤ leaf_count t ∧ leaf_count t ≤ message_count t) ∧
      (∀ m : MessageNode,
        leaf_count (ConvTree.node m []) = 1 ∧
          message_count (ConvTree.node m []) = 1) ∧
      message_count scenario_tree = 4 ∧ leaf_count scenario_tree = 2 :=
  ⟨leaf_count_bounds, fun _ => ⟨rfl, rfl⟩, rfl, rfl⟩

/-- C7 counterexample: `clear_output` takes no explicit directory argument in
the source; with the identical (empty) explicit argument list but two
different ambient values of the module-global `output_path`, it clears two
different directories — its effect is NOT determined solely by its explicit
arguments. -/
theorem clear_output_global_counterexample :
    clear_output ⟨"output"⟩ [("output", "a.md"), ("other", "b.md")] ≠
      clear_output ⟨"other"⟩ [("output", "a.md"), ("other", "b.md")] := by
  decide

/-- C7 amended: `clear_output` receives no explicit output-directory
parameter; the directory it clears is the ambient module-global
`output_path`.  Its effect is determined by that global: two runs whose
global `output_path` agrees clear the same directory, whatever the rest of
the state. -/
theorem clear_output_determined_by_global (g g' : GlobalState)
    (files : List FSFile) (h : g.output_path = g'.output_path) :
    clear_output g files = clear_output g' files := by
  cases g; cases g'; cases h; rfl

/-- C7 witness: the amended claim applied at a concrete global state and
filesystem. -/
theorem clear_output_determined_by_global_witness :
    clear_output ⟨"output"⟩ [("output", "a.md"), ("other", "b.md")] =
      clear_output ⟨"output"⟩ [("output", "a.md"), ("other", "b.md")] :=
  clear_output_determined_by_global ⟨"output"⟩ ⟨"output"⟩
    [("output", "a.md"), ("other", "b.md")] rfl

/-- C8: every markdown file written by `get_top_convos` lands at
`output_path ++ "/" ++ sanitized_title(c) ++ ".md"` — the file name is
exactly the conversation's sanitized title followed by the extension ".md",
inside the supplied output directory. -/
theorem saved_files_naming (output_path : String)
    (attr_func : Conversation → Int) (convos : List Conversation)
    (count : Nat) (r : TopConvosResult)
    (h : get_top_convos output_path attr_func convos count = .ok r) :
    r.saved_files = (top_n attr_func count convos).map
      (fun c => output_path ++ "/" ++ (sanitized_title c ++ ".md")) := by
  unfold get_top_convos at h
  dsimp only at h
  split at h
  · exact Except.noConfusion h
  · split at h
    · exact Except.noConfusion h
    · split at h
      · exact Except.noConfusion h
      · injection h with h'
        subst h'
        rfl

/-- C8 witness: on the five demo conversations with output directory
"output", the three saved files are exactly the sanitized titles of the top
three conversations with ".md" appended, inside "output". -/
theorem saved_files_naming_witness :
    (({ avg := 16/5, median := 3, max := 5,
        saved_files := ["output/bravo.md", "output/delta.md",
          "output/charlie.md"] } : TopConvosResult)).saved_files =
      (top_n message_count_attr 3 demo_convos).map
        (fun c => "output" ++ "/" ++ (sanitized_title c ++ ".md")) :=
  saved_files_naming "output" message_count_attr demo_convos 3
    { avg := 16/5, median := 3, max := 5,
      saved_files := ["output/bravo.md", "output/delta.md",
        "output/charlie.md"] } (by rfl)

/-- C9: on every non-empty statistics list, the median computed by
`get_top_convos` — `sorted(stats)[len(stats) // 2]` — is the element at
index ⌊n/2⌋ of the ascending-sorted list of the n values (which is indeed a
sorted permutation of the input); for even n that is the upper of the two
middle elements, not their mean. -/
theorem median_is_upper_middle (stats : List Int) (h : stats ≠ []) :
    ∃ hlt : stats.length / 2 < (sorted_asc stats).length,
      median_stat stats =
          some ((sorted_asc stats).get ⟨stats.length / 2, hlt⟩) ∧
        (sorted_asc stats).Sorted (fun a b => a ≤ b) ∧
        (sorted_asc stats).Perm stats := by
  have hpos : 0 < stats.length := List.length_pos.mpr h
  have hlt : stats.length / 2 < (sorted_asc stats).length := by
    rw [sorted_asc_length]
    exact Nat.div_lt_self hpos (by norm_num)
  exact ⟨hlt, List.get?_eq_get hlt, sorted_asc_sorted stats,
    sorted_asc_perm stats⟩

/-- C9 witness: on the even-length list [1, 2, 3, 4] the median is the upper
middle element 3 (the mean of the two middle elements would be 5/2). -/
theorem median_is_upper_middle_witness :
    ([1, 2, 3, 4] : List Int) ≠ [] ∧
      (∃ hlt : ([1, 2, 3, 4] : List Int).length / 2 <
          (sorted_asc [1, 2, 3, 4]).length,
        median_stat [1, 2, 3, 4] =
            some ((sorted_asc [1, 2, 3, 4]).get
              ⟨([1, 2, 3, 4] : List Int).length / 2, hlt⟩) ∧
          (sorted_asc [1, 2, 3, 4]).Sorted (fun a b => a ≤ b) ∧
          (sorted_asc [1, 2, 3, 4]).Perm [1, 2, 3, 4]) ∧
      median_stat [1, 2, 3, 4] = some 3 :=
  ⟨by decide, median_is_upper_middle [1, 2, 3, 4] (by decide), by rfl⟩

theorem weekday_counts_cons (off : Nat) (t : Nat) (ts : List Nat)
    (d : Fin 7) :
    weekday_counts off (t :: ts) d =
      weekday_counts off ts d + if weekday_of off t = d then 1 else 0 := by
  simp [weekday_counts, List.countP_cons]

/-- C10: the week-wise frequency computation of
`create_weekwise_timeseries_graph` assigns each timestamp to exactly one of
the seven weekday buckets (by the weekday of its local date, modelled as a
fixed UTC offset), so the seven bucket counts sum to the number of
timestamps — and each bucket count is at most that total. -/
theorem weekday_counts_partition (off : Nat) (timestamps : List Nat) :
    (∑ d : Fin 7, weekday_counts off timestamps d) = timestamps.length ∧
      (∀ ts ∈ timestamps,
        (Finset.univ.filter
          (fun d : Fin 7 => weekday_of off ts = d)).card = 1) ∧
      ∀ d : Fin 7, weekday_counts off timestamps d ≤ timestamps.length := by
  refine ⟨?_, ?_, ?_⟩
  · induction timestamps with
    | nil => simp [weekday_counts]
    | cons t ts ih =>
      simp only [weekday_counts_cons, Finset.sum_add_distrib, ih,
        List.length_cons]
      have hone :
          (∑ d : Fin 7, if weekday_of off t = d then 1 else 0) = 1 := by
        rw [Finset.sum_ite_eq]
        simp
      omega
  · intro ts _
    simp [Finset.filter_eq]
  · intro d
    exact List.countP_le_length _

/-- C10 witness: at offset 0 the three timestamps 0, 86400 and 100 fall into
the Thursday, Friday and Thursday buckets; the seven bucket counts sum to 3,
and timestamp 0 lies in exactly one bucket. -/
theorem weekday_counts_partition_witness :
    (∑ d : Fin 7, weekday_counts 0 [0, 86400, 100] d) =
        ([0, 86400, 100] : List Nat).length ∧
      (Finset.univ.filter (fun d : Fin 7 => weekday_of 0 0 = d)).card = 1 :=
  ⟨(weekday_counts_partition 0 [0, 86400, 100]).1,
    (weekday_counts_partition 0 [0, 86400, 100]).2.1 0 (by decide)⟩

theorem mem_grouped_by_week {convos : List Conversation} {k : Nat}
    {g : List Conversation} :
    (k, g) ∈ grouped_by_week convos ↔
      k ∈ (convos.filterMap conv_week).dedup ∧
        g = convos.filter (fun c => conv_week c = some k) := by
  unfold grouped_by_week
  rw [List.mem_map]
  constructor
  · rintro ⟨a, ha, heq⟩
    obtain ⟨rfl, rfl⟩ : a = k ∧
        convos.filter (fun c => conv_week c = some a) = g :=
      Prod.mk.injEq .. ▸ heq
    exact ⟨ha, rfl⟩
  · rintro ⟨hk, rfl⟩
    exact ⟨k, hk, rfl⟩

theorem mem_week_group {convos : List Conversation} {k : Nat}
    {c : Conversation} :
    c ∈ convos.filter (fun c => conv_week c = some k) ↔
      c ∈ convos ∧ conv_week c = some k := by
  simp [List.mem_filter]

theorem week_key_mem {convos : List Conversation} {c : Conversation}
    {t : Nat} (hc : c ∈ convos) (ht : c.create_time = some t) :
    week_start t ∈ (convos.filterMap conv_week).dedup := by
  rw [List.mem_dedup, List.mem_filterMap]
  exact ⟨c, hc, by simp [conv_week, ht]⟩

/-- C5: on every collection with unique conversation ids, `grouped_by_week`
is a partition of the conversations that have a `create_time`: each appears
in exactly one group, the groups' id sets are pairwise disjoint, their union
is the set of collection ids that have a timestamp, and conversations
lacking a `create_time` appear in no group. -/
theorem grouped_by_week_partitions (convos : List Conversation)
    (hids : (convos.map Conversation.id).Nodup) :
    grouped_by_week_is_partition convos := by
  refine ⟨?_, ?_, ?_, ?_, ?_⟩
  · intro c hc t ht
    refine ⟨convos.filter (fun c => conv_week c = some (week_start t)),
      mem_grouped_by_week.mpr ⟨week_key_mem hc ht, rfl⟩,
      mem_week_group.mpr ⟨hc, by simp [conv_week, ht]⟩, ?_⟩
    intro k' g' hg' hcg'
    obtain ⟨hk', rfl⟩ := mem_grouped_by_week.mp hg'
    have hck' := (mem_week_group.mp hcg').2
    rw [conv_week, ht] at hck'
    exact (Option.some.inj hck').symm
  · unfold grouped_by_week
    rw [List.map_map]
    have hcomp : (Prod.fst ∘ fun k : Nat =>
        (k, convos.filter (fun c => conv_week c = some k))) = id := rfl
    rw [hcomp, List.map_id]
    exact List.nodup_dedup _
  · intro k g k' g' hg hg' hkk' c hcg c' hcg'
    obtain ⟨_, rfl⟩ := mem_grouped_by_week.mp hg
    obtain ⟨_, rfl⟩ := mem_grouped_by_week.mp hg'
    obtain ⟨hc, hck⟩ := mem_week_group.mp hcg
    obtain ⟨hc', hck'⟩ := mem_week_group.mp hcg'
    intro hid
    have hcc : c = c' := List.inj_on_of_nodup_map hids hc hc' hid
    subst hcc
    rw [hck] at hck'
    exact hkk' (Option.some.inj hck')
  · intro i
    constructor
    · rintro ⟨k, g, hg, hi⟩
      obtain ⟨_, rfl⟩ := mem_grouped_by_week.mp hg
      rcases List.mem_map.mp hi with ⟨c, hcg, rfl⟩
      obtain ⟨hc, hck⟩ := mem_week_group.mp hcg
      refine ⟨c, hc, rfl, ?_⟩
      rw [conv_week] at hck
      cases hct : c.create_time with
      | none => rw [hct] at hck; exact Option.noConfusion hck
      | some t => rfl
    · rintro ⟨c, hc, rfl, hsome⟩
      cases hct : c.create_time with
      | none => rw [hct] at hsome; exact Bool.noConfusion hsome
      | some t =>
        refine ⟨week_start t,
          convos.filter (fun c => conv_week c = some (week_start t)),
          mem_grouped_by_week.mpr ⟨week_key_mem hc hct, rfl⟩, ?_⟩
        exact List.mem_map.mpr
          ⟨c, mem_week_group.mpr ⟨hc, by simp [conv_week, hct]⟩, rfl⟩
  · intro c hc hnone k g hg hcg
    obtain ⟨_, rfl⟩ := mem_grouped_by_week.mp hg
    have hck := (mem_week_group.mp hcg).2
    rw [conv_week, hnone] at hck
    exact Option.noConfusion hck

/-- C5 witness: the partition invariant holds on the five demo
conversations (four with a timestamp, spanning two weeks, one without). -/
theorem grouped_by_week_partitions_witness :
    (demo_convos.map Conversation.id).Nodup ∧
      grouped_by_week_is_partition demo_convos :=
  ⟨by decide, grouped_by_week_partitions demo_convos (by decide)⟩

end ChatExport
